import Mathlib

/-!
# Verification of the portfolio-metrics library

Shallow embedding of the four metric functions (`calculateCAGR`,
`calculateXIRR`, `calculateSharpeRatio`, `calculateMaxDrawdown`) and their
shared validation/statistics helpers, translated from the JavaScript source
(index.js and utils.js).

Modelling conventions:
* JS numbers are modelled exactly: finite values as rationals (`ℚ`) where the
  source only does field arithmetic and comparisons, and as reals (`ℝ`) where
  the source takes powers or square roots.  Floating-point rounding is not
  modelled.
* `NaN` is modelled explicitly (`JQ.nan`, `JR.nan`, `DD.nan`) because the
  validation guards and the drawdown scan behave differently on it: every JS
  comparison involving `NaN` is false.  JS `Infinity` is modelled where the
  library itself can produce it (`JR.posInf`/`JR.negInf` results, the
  drawdown division); an `Infinity` passed *in* by a caller is outside the
  scope of the claims and is not part of the input types.
* JS `Date` objects are modelled as `Option ℤ` (the millisecond timestamp;
  `none` is an invalid date, whose `getTime()` is `NaN`).  Negative zero is
  not distinguished from zero.
* Thrown errors become `Except MetricError`, with the error kinds of the
  specification's taxonomy (section 7) replacing the message strings.
-/

namespace Portfolio

/-- The error taxonomy (specification section 7); the source throws `Error`
with a message and the kind is determined by the throw site. -/
inductive MetricError where
  | invalidArgumentType
  | outOfRangeValue
  | invalidDateOrdering
  | insufficientData
  | degenerateInput
  | noRootInBracket
  | nonConvergence
deriving DecidableEq

/-- A JS number appearing as an input: `NaN` or a finite value. -/
inductive JQ where
  | nan
  | num (q : ℚ)
deriving DecidableEq

/-- JS `a <= b` on numbers: false when either side is `NaN`. -/
def jqLe : JQ → JQ → Bool
  | .num a, .num b => a ≤ b
  | _, _ => false

/-- JS `a < b` on numbers: false when either side is `NaN`. -/
def jqLt : JQ → JQ → Bool
  | .num a, .num b => a < b
  | _, _ => false

/-- JS `a > b` on numbers: false when either side is `NaN`. -/
def jqGt : JQ → JQ → Bool
  | .num a, .num b => b < a
  | _, _ => false

/-- JS `a + b` on numbers: `NaN` propagates. -/
def jqAdd : JQ → JQ → JQ
  | .num a, .num b => .num (a + b)
  | _, _ => .nan

/-- JS `a - b` on numbers: `NaN` propagates. -/
def jqSub : JQ → JQ → JQ
  | .num a, .num b => .num (a - b)
  | _, _ => .nan

/-- JS `a / b` as used by `mean` and `stdDev`, whose divisors are list
lengths (or lengths minus one) that their guards keep nonzero: the zero
divisor case (JS would give an infinity) is unreachable there and mapped to
`nan`. -/
def jqDiv : JQ → JQ → JQ
  | .num a, .num b => if b = 0 then .nan else .num (a / b)
  | _, _ => .nan

/-- JS unary negation on numbers: `NaN` propagates. -/
def jqNeg : JQ → JQ
  | .nan => .nan
  | .num q => .num (-q)

/-- JS `Math.pow(x, 2)` as used by `stdDev`: `NaN` propagates. -/
def jqSq : JQ → JQ
  | .num a => .num (a ^ 2)
  | .nan => .nan

/-- `validateDate` (utils.js): the value must be a `Date` instance whose
timestamp is not `NaN`. -/
def validateDate (date : Option ℤ) : Except MetricError Unit :=
  match date with
  | some _ => .ok ()
  | none => .error .invalidArgumentType

/-- `validatePositiveNumber` (utils.js): throws when
`typeof value !== 'number' || value <= 0`; for a number input only the
comparison remains, and the JS comparison is false for `NaN`. -/
def validatePositiveNumber (value : JQ) : Except MetricError Unit :=
  if jqLe value (.num 0) then .error .outOfRangeValue else .ok ()

/-- `validateNonNegativeNumber` (utils.js): throws when `value < 0`. -/
def validateNonNegativeNumber (value : JQ) : Except MetricError Unit :=
  if jqLt value (.num 0) then .error .outOfRangeValue else .ok ()

/-- `validateExpenseRatio` (utils.js): throws when
`expenseRatio < 0 || expenseRatio >= 1` (`x >= 1` is `1 <= x`, false for
`NaN`). -/
def validateExpenseRatio (value : JQ) : Except MetricError Unit :=
  if jqLt value (.num 0) || jqLe (.num 1) value then .error .outOfRangeValue
  else .ok ()

/-- Milliseconds in a 365.25-day year: `1000 * 60 * 60 * 24 * 365.25`. -/
def msPerYear : ℚ := 31557600000

/-- `calculateYears` (utils.js): elapsed years between two valid dates. -/
def calculateYears (startDate endDate : ℤ) : ℚ :=
  ((endDate - startDate : ℤ) : ℚ) / msPerYear

/-- A JS number produced by the real-valued computations (`Math.pow`,
`Math.sqrt`, division): `NaN`, an infinity, or a finite real. -/
inductive JR where
  | nan
  | posInf
  | negInf
  | val (x : ℝ)

/-- A finite-or-NaN input read as a computation value. -/
def toJR : JQ → JR
  | .nan => .nan
  | .num q => .val (q : ℝ)

/-- JS negation. -/
def jrNeg : JR → JR
  | .nan => .nan
  | .posInf => .negInf
  | .negInf => .posInf
  | .val a => .val (-a)

/-- JS addition: `NaN` propagates, opposite infinities give `NaN`. -/
def jrAdd : JR → JR → JR
  | .nan, _ => .nan
  | _, .nan => .nan
  | .posInf, .negInf => .nan
  | .negInf, .posInf => .nan
  | .posInf, _ => .posInf
  | _, .posInf => .posInf
  | .negInf, _ => .negInf
  | _, .negInf => .negInf
  | .val a, .val b => .val (a + b)

/-- JS subtraction, `a + (-b)`. -/
def jrSub (a b : JR) : JR := jrAdd a (jrNeg b)

/-- JS multiplication. -/
noncomputable def jrMul : JR → JR → JR
  | .nan, _ => .nan
  | _, .nan => .nan
  | .val a, .val b => .val (a * b)
  | .posInf, .posInf => .posInf
  | .posInf, .negInf => .negInf
  | .negInf, .posInf => .negInf
  | .negInf, .negInf => .posInf
  | .posInf, .val b => if b = 0 then .nan else if 0 < b then .posInf else .negInf
  | .val a, .posInf => if a = 0 then .nan else if 0 < a then .posInf else .negInf
  | .negInf, .val b => if b = 0 then .nan else if 0 < b then .negInf else .posInf
  | .val a, .negInf => if a = 0 then .nan else if 0 < a then .negInf else .posInf

/-- JS division (negative zero is not distinguished, so a finite value over
zero takes the sign of the numerator, and `0 / 0` is `NaN`). -/
noncomputable def jrDiv : JR → JR → JR
  | .nan, _ => .nan
  | _, .nan => .nan
  | .val a, .val b =>
      if b = 0 then (if a = 0 then .nan else if 0 < a then .posInf else .negInf)
      else .val (a / b)
  | .posInf, .posInf => .nan
  | .posInf, .negInf => .nan
  | .negInf, .posInf => .nan
  | .negInf, .negInf => .nan
  | .val _, .posInf => .val 0
  | .val _, .negInf => .val 0
  | .posInf, .val b => if 0 ≤ b then .posInf else .negInf
  | .negInf, .val b => if 0 ≤ b then .negInf else .posInf

/-- JS `Math.pow` (ES `Number::exponentiate`).  Two coarse corners, both
unreachable from the embedded library (its bases are `NaN` or positive, its
exponents finite): a `negInf` base ignores the odd-integer-exponent sign
rule, and a negative finite base with a non-integer finite exponent (`NaN`
in JS) is mapped through `Real.rpow`. -/
noncomputable def jrPow (b e : JR) : JR :=
  match e with
  | .nan => .nan
  | .posInf =>
      match b with
      | .nan => .nan
      | .posInf => .posInf
      | .negInf => .posInf
      | .val x => if 1 < |x| then .posInf else if |x| < 1 then .val 0 else .nan
  | .negInf =>
      match b with
      | .nan => .nan
      | .posInf => .val 0
      | .negInf => .val 0
      | .val x => if 1 < |x| then .val 0 else if |x| < 1 then .posInf else .nan
  | .val y =>
      if y = 0 then .val 1
      else
        match b with
        | .nan => .nan
        | .posInf => if 0 < y then .posInf else .val 0
        | .negInf => if 0 < y then .posInf else .val 0
        | .val x => .val (x ^ y)

/-- `calculateCAGR` (index.js lines 22–52). -/
noncomputable def calculateCAGR (initialValue finalValue : JQ)
    (startDate endDate : Option ℤ) (expenseRatio : Option JQ) :
    Except MetricError JR := do
  validatePositiveNumber initialValue
  validateNonNegativeNumber finalValue
  validateDate startDate
  validateDate endDate
  match startDate, endDate with
  | some s, some e =>
      if s ≥ e then throw .invalidDateOrdering
      else do
        match expenseRatio with
        | some er => validateExpenseRatio er
        | none => pure ()
        let years := calculateYears s e
        if finalValue = .num 0 then
          pure (.val (-1))
        else
          let cagr := jrSub
            (jrPow (jrDiv (toJR finalValue) (toJR initialValue))
              (jrDiv (.val 1) (.val (years : ℝ))))
            (.val 1)
          match expenseRatio with
          | some er =>
              pure (jrSub (jrMul (jrAdd (.val 1) cagr) (jrSub (.val 1) (toJR er))) (.val 1))
          | none => pure cagr
  | _, _ => throw .invalidArgumentType

/-- `npv` (utils.js lines 275–282): the discounted sum of `(timestamp,
amount)` pairs at rate `r`, relative to `refDate`.  The exponent is a real
power (`Real.rpow`); within the bisection bracket the base `1 + r` is
positive. -/
noncomputable def npv (r : ℝ) (cashflows : List (ℤ × ℚ)) (refDate : ℤ) : ℝ :=
  cashflows.foldl
    (fun sum cf =>
      sum + (cf.2 : ℝ) / (1 + r) ^ (((cf.1 - refDate : ℤ) : ℝ) / ((msPerYear : ℚ) : ℝ)))
    0

/-- A cashflow entry as `calculateXIRR` receives it: a `date` property (a JS
`Date`) and an `amount` (a JS number).  Entries missing either property are
not modelled separately: a present `Date` object is always truthy, so the
check `!cf.date || !cf.amount` reduces to the amount's falsiness. -/
structure Cashflow where
  date : Option ℤ
  amount : JQ
deriving DecidableEq

/-- JS falsiness of an `amount`: `!cf.amount` is true exactly for `0`, `-0`
and `NaN` among numbers. -/
def jqFalsy : JQ → Bool
  | .num q => q = 0
  | .nan => true

/-- The per-entry validation loop of `calculateXIRR` (index.js lines 70–84):
reject an entry whose amount is falsy (`0` or `NaN`), whose date is invalid,
or whose amount is `NaN`; collect the validated `(timestamp, amount)`
pairs. -/
def validateEntries : List Cashflow → Except MetricError (List (ℤ × ℚ))
  | [] => .ok []
  | cf :: rest =>
      if jqFalsy cf.amount then .error .invalidArgumentType
      else
        match cf.date, cf.amount with
        | none, _ => .error .invalidArgumentType
        | some _, .nan => .error .invalidArgumentType
        | some d, .num q => do
            let tail ← validateEntries rest
            pure ((d, q) :: tail)

/-- Stable insertion of a cashflow into a date-sorted list. -/
def sortInsert (cf : ℤ × ℚ) : List (ℤ × ℚ) → List (ℤ × ℚ)
  | [] => [cf]
  | y :: ys => if cf.1 ≤ y.1 then cf :: y :: ys else y :: sortInsert cf ys

/-- `validCashflows.sort((a, b) => a.date - b.date)`: a stable ascending
sort by timestamp (insertion sort; `npv` and the reference date depend only
on the multiset of entries and the minimal date, so the sorting algorithm
itself is immaterial). -/
def sortFlows (l : List (ℤ × ℚ)) : List (ℤ × ℚ) := l.foldr sortInsert []

/-- The bisection loop of `calculateXIRR` (index.js lines 109–131), with
the remaining iteration count as fuel: `bisect f low high n` runs up to `n`
iterations and then applies the final `1e-4` tolerance check to the last
midpoint (the source's `const mid` / `const finalR` bindings are
inlined). -/
noncomputable def bisect (f : ℝ → ℝ) : ℝ → ℝ → ℕ → Except MetricError ℝ
  | low, high, 0 =>
      if |f ((low + high) / 2)| > 1e-4 then .error .nonConvergence
      else .ok ((low + high) / 2)
  | low, high, n + 1 =>
      if |f ((low + high) / 2)| < 1e-6 then .ok ((low + high) / 2)
      else if f ((low + high) / 2) > 0 then bisect f ((low + high) / 2) high n
      else bisect f low ((low + high) / 2) n

/-- The body of `calculateXIRR` after the per-entry validation (index.js
lines 86–131): the mixed-sign check, the sort (whose first element's date is
the discounting reference), the bracket sign check at the bounds `-0.999`
and `100000.0`, and the 100-iteration bisection.  The source's
`hasPositive` / `hasNegative` / `sorted` / `refDate` bindings are
inlined. -/
noncomputable def xirrBody (valid : List (ℤ × ℚ)) : Except MetricError ℝ :=
  if !(valid.any fun p => 0 < p.2) || !(valid.any fun p => p.2 < 0) then
    .error .degenerateInput
  else
    if npv (-0.999) (sortFlows valid) (sortFlows valid).headI.1
        * npv 100000 (sortFlows valid) (sortFlows valid).headI.1 > 0 then
      .error .noRootInBracket
    else
      bisect (fun r => npv r (sortFlows valid) (sortFlows valid).headI.1)
        (-0.999) 100000 100

/-- `calculateXIRR` (index.js lines 60–132). -/
noncomputable def calculateXIRR (cashflows : List Cashflow) :
    Except MetricError ℝ :=
  if cashflows.length < 2 then .error .insufficientData
  else
    match validateEntries cashflows with
    | .error e => .error e
    | .ok valid => xirrBody valid

/-- One bracket-narrowing step of the bisection, on the state `(low, high)`:
`low` moves to the midpoint when the NPV there is positive, otherwise
`high` does. -/
noncomputable def bStep (f : ℝ → ℝ) (p : ℝ × ℝ) : ℝ × ℝ :=
  if f ((p.1 + p.2) / 2) > 0 then ((p.1 + p.2) / 2, p.2)
  else (p.1, (p.1 + p.2) / 2)

/-- The midpoint of a bracket. -/
noncomputable def bMid (p : ℝ × ℝ) : ℝ := (p.1 + p.2) / 2

/-- `mean` (utils.js): 0 for an empty array. -/
def mean (arr : List JQ) : JQ :=
  if arr.length = 0 then .num 0
  else jqDiv (arr.foldl jqAdd (.num 0)) (.num arr.length)

/-- `stdDev` (utils.js): sample standard deviation with Bessel's correction
(`n - 1` divisor); 0 for arrays shorter than 2.  `Math.sqrt` of a negative
number is `NaN` in JS. -/
noncomputable def stdDev (arr : List JQ) : JR :=
  if arr.length < 2 then .val 0
  else
    match jqDiv (arr.foldl (fun sum v => jqAdd sum (jqSq (jqSub v (mean arr)))) (.num 0))
        (.num ((arr.length : ℚ) - 1)) with
    | .nan => .nan
    | .num q => if q < 0 then .nan else .val (Real.sqrt (q : ℝ))

/-- JS `a < b` on computation values: false whenever `NaN` is involved. -/
def jrLt : JR → JR → Prop
  | .nan, _ => False
  | _, .nan => False
  | .negInf, .negInf => False
  | .negInf, _ => True
  | _, .negInf => False
  | .posInf, _ => False
  | .val _, .posInf => True
  | .val a, .val b => a < b

/-- Comparisons on `JR` values are classical (they compare reals). -/
noncomputable instance jrLtDec (a b : JR) : Decidable (jrLt a b) :=
  Classical.propDecidable _

/-- `calculateSharpeRatio` (index.js lines 141–164). -/
noncomputable def calculateSharpeRatio (returns : List JQ) (riskFreeRate : JQ) :
    Except MetricError JR :=
  if returns.length < 2 then .error .insufficientData
  else if returns.any (· == JQ.nan) then .error .invalidArgumentType
  else if riskFreeRate = JQ.nan then .error .invalidArgumentType
  else
    let avgReturn := mean returns
    let volatility := stdDev returns
    if jrLt volatility (.val 1e-10) then
      if jqGt avgReturn riskFreeRate then .ok .posInf
      else if jqLt avgReturn riskFreeRate then .ok .negInf
      else .ok (.val 0)
    else .ok (jrDiv (toJR (jqSub avgReturn riskFreeRate)) volatility)

/-- A drawdown value `(value - maxSoFar) / maxSoFar` as JS computes it:
the division can produce `NaN` (`0 / 0`, when the running peak is `0`) or
an infinity. -/
inductive DD where
  | nan
  | posInf
  | negInf
  | num (q : ℚ)
deriving DecidableEq

/-- JS division for the drawdown expression (negative zero not modelled:
a nonzero numerator over zero takes the numerator's sign). -/
def ddDiv (a b : ℚ) : DD :=
  if b = 0 then (if a = 0 then .nan else if 0 < a then .posInf else .negInf)
  else .num (a / b)

/-- JS `a < b` on drawdown values: false whenever `NaN` is involved. -/
def ddLt : DD → DD → Bool
  | .nan, _ => false
  | _, .nan => false
  | .negInf, .negInf => false
  | .negInf, _ => true
  | _, .negInf => false
  | .posInf, _ => false
  | .num _, .posInf => true
  | .num a, .num b => a < b

/-- The scan loop of `calculateMaxDrawdown` (index.js lines 187–196), over
the validated (hence finite) values: update the peak when the value exceeds
it, otherwise keep the most negative drawdown seen (the `<` comparison
discards a `NaN` drawdown; the source's `const drawdown` binding is
inlined). -/
def mddLoop : List ℚ → ℚ → DD → DD
  | [], _, maxDrawdown => maxDrawdown
  | v :: rest, maxSoFar, maxDrawdown =>
      if maxSoFar < v then mddLoop rest v maxDrawdown
      else
        if ddLt (ddDiv (v - maxSoFar) maxSoFar) maxDrawdown then
          mddLoop rest maxSoFar (ddDiv (v - maxSoFar) maxSoFar)
        else mddLoop rest maxSoFar maxDrawdown

/-- The per-entry validation loop of `calculateMaxDrawdown` (index.js lines
177–181): each value must be a non-`NaN`, non-negative number. -/
def checkValues : List JQ → Except MetricError Unit
  | [] => .ok ()
  | v :: rest =>
      match v with
      | .nan => .error .invalidArgumentType
      | .num q => if q < 0 then .error .outOfRangeValue else checkValues rest

/-- The payload of a validated value (`checkValues` guarantees every entry
is finite, so this is the identity on the list's contents there). -/
def toQ : JQ → ℚ
  | .nan => 0
  | .num q => q

/-- `calculateMaxDrawdown` (index.js lines 172–199). -/
def calculateMaxDrawdown (values : List JQ) : Except MetricError DD :=
  if values.length < 2 then .error .insufficientData
  else
    match checkValues values with
    | .error e => .error e
    | .ok _ =>
        let vs := values.map toQ
        .ok (mddLoop vs.tail vs.headI (.num 0))

end Portfolio

namespace Portfolio

/-! ## Max drawdown: loop invariants -/

/-- The scan keeps the worst drawdown finite and in `[-1, 0]` as long as the
running peak and every remaining value are non-negative: a zero peak forces
the non-excess value to be `0`, whose drawdown is the `NaN` that the strict
comparison discards. -/
lemma mddLoop_num (vs : List ℚ) : ∀ (peak m : ℚ), 0 ≤ peak → (∀ v ∈ vs, 0 ≤ v) →
    -1 ≤ m → m ≤ 0 → ∃ x : ℚ, mddLoop vs peak (.num m) = .num x ∧ -1 ≤ x ∧ x ≤ 0 := by
  induction vs with
  | nil => exact fun peak m _ _ h1 h2 => ⟨m, rfl, h1, h2⟩
  | cons v rest ih =>
      intro peak m hpeak hall h1 h2
      have hv : 0 ≤ v := hall v (by simp)
      have hrest : ∀ w ∈ rest, 0 ≤ w := fun w hw => hall w (List.mem_cons_of_mem _ hw)
      by_cases hlt : peak < v
      · rw [mddLoop, if_pos hlt]
        exact ih v m hv hrest h1 h2
      · rw [mddLoop, if_neg hlt]
        by_cases hz : peak = 0
        · have hv0 : v = 0 := le_antisymm (hz ▸ not_lt.mp hlt) hv
          have : ddDiv (v - peak) peak = .nan := by
            simp [ddDiv, hz, hv0]
          rw [this]
          simpa [ddLt] using ih peak m hpeak hrest h1 h2
        · have hpos : 0 < peak := lt_of_le_of_ne hpeak (Ne.symm hz)
          have hdd : ddDiv (v - peak) peak = .num ((v - peak) / peak) := by
            simp [ddDiv, hz]
          rw [hdd]
          by_cases hless : (v - peak) / peak < m
          · rw [show ddLt (.num ((v - peak) / peak)) (.num m) = true by
              simpa [ddLt] using hless, if_pos rfl]
            have hge : -1 ≤ (v - peak) / peak := by
              rw [le_div_iff₀ hpos]
              linarith
            have hle : (v - peak) / peak ≤ 0 :=
              div_nonpos_of_nonpos_of_nonneg (by linarith [not_lt.mp hlt]) hpeak
            exact ih peak ((v - peak) / peak) hpeak hrest hge hle
          · rw [show ddLt (.num ((v - peak) / peak)) (.num m) = false by
              simpa [ddLt] using hless]
            simpa using ih peak m hpeak hrest h1 h2

/-- A series that never drops strictly below the running peak keeps the
worst drawdown at `0`. -/
lemma mddLoop_zero (vs : List ℚ) : ∀ peak : ℚ, List.Chain (· ≤ ·) peak vs →
    mddLoop vs peak (.num 0) = .num 0 := by
  induction vs with
  | nil => exact fun _ _ => rfl
  | cons v rest ih =>
      intro peak hchain
      rcases hchain with _ | ⟨hpv, hrest⟩
      by_cases hlt : peak < v
      · rw [mddLoop, if_pos hlt]
        exact ih v hrest
      · have hev : v = peak := le_antisymm (not_lt.mp hlt) hpv
        rw [mddLoop, if_neg hlt]
        subst hev
        by_cases hz : v = 0
        · have : ddDiv (v - v) v = .nan := by simp [ddDiv, hz]
          rw [this]
          simpa [ddLt] using ih v hrest
        · have : ddDiv (v - v) v = .num 0 := by simp [ddDiv, hz]
          rw [this]
          simpa [ddLt] using ih v hrest

/-- Validation accepts a list of finite non-negative values. -/
lemma checkValues_ok (qs : List ℚ) (h : ∀ q ∈ qs, 0 ≤ q) :
    checkValues (qs.map JQ.num) = .ok () := by
  induction qs with
  | nil => rfl
  | cons q rest ih =>
      have hq : 0 ≤ q := h q (by simp)
      rw [List.map_cons, checkValues, if_neg (not_lt.mpr hq)]
      exact ih fun w hw => h w (List.mem_cons_of_mem _ hw)

/-- Conversely, every entry of an accepted list is a finite non-negative
value. -/
lemma checkValues_accepts (values : List JQ) (h : checkValues values = .ok ()) :
    ∀ v ∈ values, ∃ q : ℚ, v = .num q ∧ 0 ≤ q := by
  induction values with
  | nil => intro v hv; cases hv
  | cons v rest ih =>
      intro w hw
      cases v with
      | nan => rw [checkValues] at h; cases h
      | num q =>
          rw [checkValues] at h
          by_cases hq : q < 0
          · rw [if_pos hq] at h; cases h
          · rw [if_neg hq] at h
            rcases List.mem_cons.mp hw with rfl | hw
            · exact ⟨q, rfl, not_lt.mp hq⟩
            · exact ih h w hw

end Portfolio


namespace Portfolio

/-- Reading back the payloads of a wrapped list of finite values. -/
lemma map_toQ_num (l : List ℚ) : (l.map JQ.num).map toQ = l := by
  induction l with
  | nil => rfl
  | cons a t ih => simp [toQ, ih]

/-! ## Claims C7 and C10: max drawdown -/

/-- C7 counterexample: on the valid series `[1, 0]` the scan returns exactly
`-1` (total loss of the peak), so the result is not strictly greater than
`-1` as claimed. -/
theorem maxDrawdown_reaches_neg_one :
    calculateMaxDrawdown [JQ.num 1, JQ.num 0] = .ok (.num (-1))
    ∧ ¬(-1 < (-1 : ℚ)) := by
  refine ⟨?_, by norm_num⟩
  unfold calculateMaxDrawdown
  norm_num [checkValues, mddLoop, toQ, ddDiv, ddLt]

/-- C7 (amended): for every valid value series (length at least 2, all
entries non-negative finite numbers) `calculateMaxDrawdown` returns a finite
value in the closed interval `[-1, 0]`, and returns exactly `0` whenever the
series never declines below a prior running peak (equivalently, whenever it
is non-decreasing; in particular for every strictly increasing series). -/
theorem maxDrawdown_range_and_zero (qs : List ℚ) (h2 : 2 ≤ qs.length)
    (hnn : ∀ q ∈ qs, 0 ≤ q) :
    (∃ x : ℚ, calculateMaxDrawdown (qs.map JQ.num) = .ok (.num x) ∧ -1 ≤ x ∧ x ≤ 0)
    ∧ (List.Chain' (· ≤ ·) qs → calculateMaxDrawdown (qs.map JQ.num) = .ok (.num 0)) := by
  obtain ⟨q0, rest, rfl⟩ : ∃ q0 rest, qs = q0 :: rest := by
    cases qs with
    | nil => simp at h2
    | cons a l => exact ⟨a, l, rfl⟩
  have hlen : ¬((q0 :: rest).map JQ.num).length < 2 := by simpa using h2
  have hck := checkValues_ok _ hnn
  have hred : calculateMaxDrawdown ((q0 :: rest).map JQ.num)
      = .ok (mddLoop rest q0 (.num 0)) := by
    unfold calculateMaxDrawdown
    rw [if_neg hlen, hck]
    show Except.ok (mddLoop (((q0 :: rest).map JQ.num).map toQ).tail
      (((q0 :: rest).map JQ.num).map toQ).headI (.num 0)) = _
    rw [map_toQ_num]
    rfl
  constructor
  · obtain ⟨x, hx, b1, b2⟩ := mddLoop_num rest q0 0 (hnn q0 (by simp))
      (fun w hw => hnn w (List.mem_cons_of_mem _ hw)) (by norm_num) le_rfl
    exact ⟨x, by rw [hred, hx], b1, b2⟩
  · intro hchain
    rw [hred, mddLoop_zero rest q0 hchain]

/-- C7 witness: a concrete valid series. -/
theorem maxDrawdown_range_and_zero_witness :
    (∃ x : ℚ, calculateMaxDrawdown ([1, 2].map JQ.num) = .ok (.num x) ∧ -1 ≤ x ∧ x ≤ 0)
    ∧ (List.Chain' (· ≤ ·) ([1, 2] : List ℚ) →
        calculateMaxDrawdown ([1, 2].map JQ.num) = .ok (.num 0)) :=
  maxDrawdown_range_and_zero [1, 2] (by norm_num) (by norm_num)

/-- C10: every value series accepted by the validation yields a finite
rational result — never `NaN` — even though a zero running peak makes the
scan compute the `NaN` drawdown `0 / 0`: the strict `<` comparison discards
that `NaN`, leaving the worst drawdown unchanged. -/
theorem maxDrawdown_never_nan (values : List JQ) (h2 : 2 ≤ values.length)
    (hok : checkValues values = .ok ()) :
    ∃ x : ℚ, calculateMaxDrawdown values = .ok (.num x) := by
  have hacc := checkValues_accepts values hok
  obtain ⟨v0, rest, rfl⟩ : ∃ v0 rest, values = v0 :: rest := by
    cases values with
    | nil => simp at h2
    | cons a l => exact ⟨a, l, rfl⟩
  obtain ⟨q0, hq0, hq0nn⟩ := hacc v0 (by simp)
  obtain ⟨x, hx, _, _⟩ := mddLoop_num (rest.map toQ) q0 0 hq0nn
    (by
      intro w hw
      obtain ⟨v, hv, rfl⟩ := List.mem_map.mp hw
      obtain ⟨q, hq, hqnn⟩ := hacc v (List.mem_cons_of_mem _ hv)
      rw [hq]
      exact hqnn)
    (by norm_num) le_rfl
  refine ⟨x, ?_⟩
  unfold calculateMaxDrawdown
  rw [if_neg (by simpa using h2), hok]
  show Except.ok (mddLoop (((v0 :: rest).map toQ)).tail
    (((v0 :: rest).map toQ)).headI (.num 0)) = _
  rw [List.map_cons, List.tail_cons, show (toQ v0 :: rest.map toQ).headI = toQ v0 from rfl,
    hq0, show toQ (JQ.num q0) = q0 from rfl, hx]

/-- C10 witness: the accepted series `[0, 0]` (whose running peak is `0`)
returns a finite value, and that value is exactly `0`. -/
theorem maxDrawdown_never_nan_witness :
    (∃ x : ℚ, calculateMaxDrawdown [JQ.num 0, JQ.num 0] = .ok (.num x))
    ∧ calculateMaxDrawdown [JQ.num 0, JQ.num 0] = .ok (.num 0) := by
  constructor
  · exact maxDrawdown_never_nan [JQ.num 0, JQ.num 0] (by norm_num)
      (by norm_num [checkValues])
  · unfold calculateMaxDrawdown
    norm_num [checkValues, mddLoop, toQ, ddDiv, ddLt]

end Portfolio

namespace Portfolio

/-! ## Claim C8: insufficient data -/

/-- C8: `calculateXIRR`, `calculateSharpeRatio` and `calculateMaxDrawdown`
each fail with `insufficientData` on every input sequence of length 0 or 1,
before any computation. -/
theorem insufficient_data_all_metrics (cfs : List Cashflow) (rs vs : List JQ)
    (rf : JQ) (h1 : cfs.length < 2) (h2 : rs.length < 2) (h3 : vs.length < 2) :
    calculateXIRR cfs = .error .insufficientData
    ∧ calculateSharpeRatio rs rf = .error .insufficientData
    ∧ calculateMaxDrawdown vs = .error .insufficientData := by
  refine ⟨?_, ?_, ?_⟩
  · unfold calculateXIRR
    rw [if_pos h1]
  · unfold calculateSharpeRatio
    rw [if_pos h2]
  · unfold calculateMaxDrawdown
    rw [if_pos h3]

/-- C8 witness: the empty sequences. -/
theorem insufficient_data_all_metrics_witness :
    calculateXIRR [] = .error .insufficientData
    ∧ calculateSharpeRatio [] (.num 0) = .error .insufficientData
    ∧ calculateMaxDrawdown [] = .error .insufficientData :=
  insufficient_data_all_metrics [] [] [] (.num 0) (by norm_num) (by norm_num)
    (by norm_num)

/-! ## Claim C9: zero amounts -/

/-- Every error the cashflow validation loop produces is of the
invalid-argument kind. -/
lemma validateEntries_error_kind (cfs : List Cashflow) :
    ∀ e, validateEntries cfs = .error e → e = .invalidArgumentType := by
  induction cfs with
  | nil => intro e h; cases h
  | cons cf rest ih =>
      intro e h
      rw [validateEntries] at h
      by_cases hf : jqFalsy cf.amount
      · rw [if_pos hf] at h
        injection h with h
        exact h.symm
      · rw [if_neg hf] at h
        cases hdate : cf.date with
        | none =>
            rw [hdate] at h
            injection h with h
            exact h.symm
        | some d =>
            rw [hdate] at h
            cases hamt : cf.amount with
            | nan =>
                rw [hamt] at h
                injection h with h
                exact h.symm
            | num q =>
                rw [hamt] at h
                cases hrec : validateEntries rest with
                | error e2 =>
                    rw [hrec] at h
                    injection h with h
                    rw [← h]
                    exact ih e2 hrec
                | ok l =>
                    rw [hrec] at h
                    cases h

/-- A zero amount anywhere makes the validation loop fail with the
invalid-argument kind: the falsiness check `!cf.amount` treats `0` as a
missing property (and any other entry failure is of the same kind). -/
lemma validateEntries_zero (cfs : List Cashflow)
    (hz : ∃ cf ∈ cfs, cf.amount = JQ.num 0) :
    validateEntries cfs = .error .invalidArgumentType := by
  induction cfs with
  | nil =>
      rcases hz with ⟨cf, h, _⟩
      cases h
  | cons cf rest ih =>
      rw [validateEntries]
      by_cases hf : jqFalsy cf.amount
      · rw [if_pos hf]
      · rw [if_neg hf]
        rcases hz with ⟨cf2, hmem, hcf2⟩
        rcases List.mem_cons.mp hmem with rfl | hmem
        · exact absurd (by rw [hcf2]; rfl) hf
        · have hrest := ih ⟨cf2, hmem, hcf2⟩
          cases hdate : cf.date with
          | none => rfl
          | some d =>
              cases hamt : cf.amount with
              | nan => rfl
              | num q => rw [hrest]; rfl

/-- C9 counterexample: a singleton array containing a zero-amount cashflow
fails with `insufficientData`, not with an invalid-argument error, because
the length check precedes the per-entry checks. -/
theorem xirr_zero_amount_singleton_cex :
    calculateXIRR [⟨some 0, JQ.num 0⟩] = .error .insufficientData
    ∧ MetricError.insufficientData ≠ .invalidArgumentType := by
  refine ⟨?_, by decide⟩
  unfold calculateXIRR
  rw [if_pos (by norm_num)]

/-- C9 (amended): for every cashflow array of length at least 2 containing
an entry whose amount is exactly `0`, `calculateXIRR` fails with an
invalid-argument error (the per-entry presence check treats a zero amount as
a missing field); and no cashflow list is ever accepted by the validation
loop while containing a zero amount.  (A shorter array fails with
`insufficientData` first.) -/
theorem xirr_zero_amount_rejected (cfs : List Cashflow) (h2 : 2 ≤ cfs.length)
    (hz : ∃ cf ∈ cfs, cf.amount = JQ.num 0) :
    calculateXIRR cfs = .error .invalidArgumentType
    ∧ ∀ l, validateEntries cfs ≠ .ok l := by
  have hve := validateEntries_zero cfs hz
  constructor
  · unfold calculateXIRR
    rw [if_neg (by omega), hve]
  · intro l h
    rw [hve] at h
    cases h

/-- C9 witness: a two-entry array whose second amount is `0`. -/
theorem xirr_zero_amount_rejected_witness :
    calculateXIRR [⟨some 0, JQ.num 1⟩, ⟨some 0, JQ.num 0⟩]
      = .error .invalidArgumentType :=
  (xirr_zero_amount_rejected [⟨some 0, JQ.num 1⟩, ⟨some 0, JQ.num 0⟩]
    (by norm_num) ⟨⟨some 0, JQ.num 0⟩, by simp, rfl⟩).1

end Portfolio

namespace Portfolio

/-! ## Claim C4: the numeric guards and NaN -/

/-- C4 (refuting the claim): every JS comparison involving `NaN` is false,
so `NaN` passes all three numeric guards (`value <= 0`, `value < 0` and
`value < 0 || value >= 1` are all false for `NaN`), and `calculateCAGR`
called with a `NaN` initial value returns `NaN` instead of failing. -/
theorem nan_passes_numeric_guards :
    validatePositiveNumber JQ.nan = .ok ()
    ∧ validateNonNegativeNumber JQ.nan = .ok ()
    ∧ validateExpenseRatio JQ.nan = .ok ()
    ∧ calculateCAGR JQ.nan (JQ.num 200) (some 0) (some 31557600000) none
        = .ok JR.nan := by
  refine ⟨rfl, rfl, rfl, ?_⟩
  have hyears : calculateYears 0 31557600000 = 1 := by
    norm_num [calculateYears, msPerYear]
  have hpow : jrPow (jrDiv (toJR (JQ.num 200)) (toJR JQ.nan))
      (jrDiv (.val 1) (.val ((calculateYears 0 31557600000 : ℚ) : ℝ))) = .nan := by
    rw [hyears]
    have h1 : jrDiv (.val 1) (.val (((1 : ℚ) : ℝ))) = .val 1 := by
      norm_num [jrDiv]
    rw [h1, show jrDiv (toJR (JQ.num 200)) (toJR JQ.nan) = .nan from rfl]
    norm_num [jrPow]
  unfold calculateCAGR
  rw [show validatePositiveNumber JQ.nan = .ok () from rfl]
  simp only [validateNonNegativeNumber, validateDate, jqLt]
  norm_num
  rw [hpow]
  rfl

end Portfolio

namespace Portfolio

/-! ## Claim C5: the CAGR formula -/

/-- C5: on valid inputs (positive initial value, non-negative final value,
start strictly before end, optional expense ratio in `[0, 1)`), a zero final
value returns exactly `-1`; otherwise the result is
`(finalValue / initialValue) ^ (1 / years) - 1` with
`years = calculateYears start end` (the 365.25-day convention), adjusted to
`(1 + cagr) * (1 - e) - 1` when an expense ratio `e` is supplied. -/
theorem cagr_formula (i f : ℚ) (s e : ℤ) (er : Option ℚ)
    (hi : 0 < i) (hf : 0 ≤ f) (hse : s < e) (her : ∀ x ∈ er, 0 ≤ x ∧ x < 1) :
    (f = 0 → calculateCAGR (.num i) (.num f) (some s) (some e) (er.map JQ.num)
        = .ok (.val (-1)))
    ∧ (f ≠ 0 → calculateCAGR (.num i) (.num f) (some s) (some e) (er.map JQ.num)
        = .ok (.val (er.elim
            (((f : ℝ) / (i : ℝ)) ^ ((1 : ℝ) / ((calculateYears s e : ℚ) : ℝ)) - 1)
            fun x => (1 + (((f : ℝ) / (i : ℝ))
              ^ ((1 : ℝ) / ((calculateYears s e : ℚ) : ℝ)) - 1)) * (1 - (x : ℝ)) - 1))) := by
  have h1 : validatePositiveNumber (.num i) = .ok () := by
    simp [validatePositiveNumber, jqLe, hi.not_le]
  have h2 : validateNonNegativeNumber (.num f) = .ok () := by
    simp [validateNonNegativeNumber, jqLt, not_lt.mpr hf]
  have hge : ¬ s ≥ e := not_le.mpr hse
  have hy0 : (0 : ℚ) < calculateYears s e := by
    unfold calculateYears
    apply div_pos
    · exact_mod_cast sub_pos.mpr hse
    · norm_num [msPerYear]
  have hyne : ((calculateYears s e : ℚ) : ℝ) ≠ 0 := by
    exact_mod_cast hy0.ne'
  have hine : ((i : ℚ) : ℝ) ≠ 0 := by
    exact_mod_cast hi.ne'
  have hcagr : f ≠ 0 → jrSub
      (jrPow (jrDiv (toJR (.num f)) (toJR (.num i)))
        (jrDiv (.val 1) (.val ((calculateYears s e : ℚ) : ℝ))))
      (.val 1)
      = .val (((f : ℝ) / (i : ℝ))
          ^ ((1 : ℝ) / ((calculateYears s e : ℚ) : ℝ)) - 1) := by
    intro _
    simp only [toJR, jrDiv]
    rw [if_neg hyne, if_neg hine]
    simp only [jrPow]
    rw [if_neg (one_div_ne_zero hyne)]
    simp only [jrSub, jrNeg, jrAdd]
    exact congrArg JR.val (by ring)
  cases er with
  | none =>
      constructor
      · intro hf0
        subst hf0
        unfold calculateCAGR
        rw [h1, h2]
        norm_num [hge]
        rfl
      · intro hfne
        unfold calculateCAGR
        rw [h1, h2]
        norm_num [hge, show JQ.num f ≠ JQ.num 0 from by simp [hfne]]
        rw [hcagr hfne]
        show Except.ok (JR.val (((f : ℝ) / (i : ℝ))
          ^ ((1 : ℝ) / ((calculateYears s e : ℚ) : ℝ)) - 1)) = _
        exact congrArg (fun z : ℝ => Except.ok (JR.val z)) (by rw [one_div])
  | some x =>
      obtain ⟨hx0, hx1⟩ := her x (by simp)
      have h3 : validateExpenseRatio (.num x) = .ok () := by
        simp [validateExpenseRatio, jqLt, jqLe, not_lt.mpr hx0, not_le.mpr hx1]
      constructor
      · intro hf0
        subst hf0
        unfold calculateCAGR
        rw [h1, h2]
        norm_num [hge, h3]
        rfl
      · intro hfne
        unfold calculateCAGR
        rw [h1, h2]
        norm_num [hge, h3, show JQ.num f ≠ JQ.num 0 from by simp [hfne]]
        rw [hcagr hfne]
        have hadj : jrSub
            (jrMul (jrAdd (.val 1)
              (.val (((f : ℝ) / (i : ℝ))
                ^ ((1 : ℝ) / ((calculateYears s e : ℚ) : ℝ)) - 1)))
              (jrSub (.val 1) (toJR (.num x))))
            (.val 1)
            = .val ((1 + (((f : ℝ) / (i : ℝ))
                ^ ((1 : ℝ) / ((calculateYears s e : ℚ) : ℝ)) - 1)) * (1 - (x : ℝ)) - 1) := by
          simp only [toJR, jrSub, jrNeg, jrAdd, jrMul]
          exact congrArg JR.val (by ring)
        rw [hadj]
        show Except.ok (JR.val ((1 + (((f : ℝ) / (i : ℝ))
          ^ ((1 : ℝ) / ((calculateYears s e : ℚ) : ℝ)) - 1)) * (1 - (x : ℝ)) - 1)) = _
        exact congrArg (fun z : ℝ => Except.ok (JR.val z)) (by rw [one_div]; ring)

/-- C5 witness: a one-year doubling with no expense ratio. -/
theorem cagr_formula_witness :
    calculateCAGR (.num 100) (.num 200) (some 0) (some 31557600000) none
      = .ok (.val (((200 : ℝ) / (100 : ℝ))
          ^ ((1 : ℝ) / ((calculateYears 0 31557600000 : ℚ) : ℝ)) - 1)) := by
  have h := (cagr_formula 100 200 0 31557600000 none (by norm_num) (by norm_num)
    (by norm_num) (by simp)).2 (by norm_num)
  simpa using h

end Portfolio

namespace Portfolio

/-! ## Claim C6: the Sharpe ratio -/

/-- Folding JS addition over wrapped finite values is rational addition. -/
lemma foldl_jqAdd_num (qs : List ℚ) : ∀ a : ℚ,
    (qs.map JQ.num).foldl jqAdd (.num a) = .num (a + qs.sum) := by
  induction qs with
  | nil => intro a; simp
  | cons q t ih =>
      intro a
      rw [List.map_cons, List.foldl_cons, show jqAdd (.num a) (.num q) = .num (a + q) from rfl,
        ih, List.sum_cons]
      exact congrArg JQ.num (by ring)

/-- `mean` on wrapped finite values is the rational arithmetic mean. -/
lemma mean_num (qs : List ℚ) (h : qs ≠ []) :
    mean (qs.map JQ.num) = .num (qs.sum / qs.length) := by
  have hlen : (qs.length : ℚ) ≠ 0 := by
    exact_mod_cast fun h0 => h (List.length_eq_zero.mp h0)
  unfold mean
  rw [if_neg (by simpa using fun h0 => h (List.length_eq_zero.mp h0)),
    foldl_jqAdd_num qs 0]
  simp only [jqDiv, List.length_map]
  rw [if_neg hlen]
  exact congrArg JQ.num (by ring_nf)

/-- Folding the squared deviations over wrapped finite values. -/
lemma foldl_sq_num (qs : List ℚ) (c : ℚ) : ∀ a : ℚ,
    (qs.map JQ.num).foldl (fun sum v => jqAdd sum (jqSq (jqSub v (.num c)))) (.num a)
      = .num (a + (qs.map fun x => (x - c) ^ 2).sum) := by
  induction qs with
  | nil => intro a; simp
  | cons q t ih =>
      intro a
      rw [List.map_cons, List.foldl_cons,
        show jqAdd (.num a) (jqSq (jqSub (.num q) (.num c))) = .num (a + (q - c) ^ 2) from rfl,
        ih, List.map_cons, List.sum_cons]
      exact congrArg JQ.num (by ring)

/-- `stdDev` on wrapped finite values is the square root of the sample
variance (Bessel's correction). -/
lemma stdDev_num (qs : List ℚ) (h2 : 2 ≤ qs.length) :
    stdDev (qs.map JQ.num)
      = .val (Real.sqrt (((qs.map fun x => (x - qs.sum / qs.length) ^ 2).sum
          / ((qs.length : ℚ) - 1) : ℚ))) := by
  have hne : qs ≠ [] := by
    intro h0
    rw [h0] at h2
    simp at h2
  have hd : ((qs.length : ℚ) - 1) ≠ 0 := by
    have : (2 : ℚ) ≤ (qs.length : ℚ) := by exact_mod_cast h2
    intro h0
    nlinarith
  have hvar : (0 : ℚ) ≤ (qs.map fun x => (x - qs.sum / qs.length) ^ 2).sum
      / ((qs.length : ℚ) - 1) := by
    apply div_nonneg
    · apply List.sum_nonneg
      intro x hx
      obtain ⟨y, _, rfl⟩ := List.mem_map.mp hx
      positivity
    · have : (2 : ℚ) ≤ (qs.length : ℚ) := by exact_mod_cast h2
      linarith
  unfold stdDev
  rw [if_neg (by simpa using not_lt.mpr h2), mean_num qs hne, foldl_sq_num]
  simp only [jqDiv, List.length_map]
  rw [if_neg hd]
  show (if (0 + (qs.map fun x => (x - qs.sum / qs.length) ^ 2).sum)
      / ((qs.length : ℚ) - 1) < 0 then JR.nan
    else .val (Real.sqrt (((0 + (qs.map fun x => (x - qs.sum / qs.length) ^ 2).sum)
      / ((qs.length : ℚ) - 1) : ℚ)))) = _
  rw [if_neg (by rw [zero_add]; exact not_lt.mpr hvar)]
  rw [zero_add]

/-- `jrLt` on two finite values is the real comparison. -/
lemma jrLt_val (a b : ℝ) : jrLt (.val a) (.val b) ↔ a < b := Iff.rfl

/-- No wrapped finite value is `NaN`. -/
lemma any_nan_map_num (qs : List ℚ) : (qs.map JQ.num).any (· == JQ.nan) = false := by
  induction qs with
  | nil => rfl
  | cons q t ih => simp [ih]

/-- C6: for a valid return series of finite values and a finite risk-free
rate: when the sample standard deviation (Bessel's correction, `n - 1`
divisor) is below `1e-10` the result is `+∞`, `-∞` or exactly `0` by the
sign of `mean - riskFreeRate`; otherwise it is
`(mean - riskFreeRate) / stdDev`. -/
theorem sharpe_formula (qs : List ℚ) (rf : ℚ) (h2 : 2 ≤ qs.length) :
    (Real.sqrt (((qs.map fun x => (x - qs.sum / qs.length) ^ 2).sum
          / ((qs.length : ℚ) - 1) : ℚ)) < 1e-10 →
        calculateSharpeRatio (qs.map JQ.num) (.num rf)
          = .ok (if rf < qs.sum / qs.length then .posInf
              else if qs.sum / qs.length < rf then .negInf else .val 0))
    ∧ (¬ Real.sqrt (((qs.map fun x => (x - qs.sum / qs.length) ^ 2).sum
          / ((qs.length : ℚ) - 1) : ℚ)) < 1e-10 →
        calculateSharpeRatio (qs.map JQ.num) (.num rf)
          = .ok (.val (((qs.sum / qs.length - rf : ℚ) : ℝ)
              / Real.sqrt (((qs.map fun x => (x - qs.sum / qs.length) ^ 2).sum
                / ((qs.length : ℚ) - 1) : ℚ))))) := by
  have hne : qs ≠ [] := by
    intro h0
    rw [h0] at h2
    simp at h2
  have hmean := mean_num qs hne
  have hsd := stdDev_num qs h2
  have hred : calculateSharpeRatio (qs.map JQ.num) (.num rf)
      = (if jrLt (.val (Real.sqrt (((qs.map fun x => (x - qs.sum / qs.length) ^ 2).sum
            / ((qs.length : ℚ) - 1) : ℚ)))) (.val 1e-10) then
          if jqGt (.num (qs.sum / qs.length)) (.num rf) then .ok .posInf
          else if jqLt (.num (qs.sum / qs.length)) (.num rf) then .ok .negInf
          else .ok (.val 0)
        else .ok (jrDiv (toJR (jqSub (.num (qs.sum / qs.length)) (.num rf)))
          (.val (Real.sqrt (((qs.map fun x => (x - qs.sum / qs.length) ^ 2).sum
            / ((qs.length : ℚ) - 1) : ℚ)))))) := by
    unfold calculateSharpeRatio
    rw [if_neg (by simpa using not_lt.mpr h2), any_nan_map_num]
    rw [if_neg (by simp), if_neg (by simp), hmean, hsd]
  constructor
  · intro hvol
    rw [hred, if_pos ((jrLt_val _ _).mpr hvol)]
    by_cases hgt : rf < qs.sum / qs.length
    · rw [if_pos (show jqGt (JQ.num (qs.sum / qs.length)) (.num rf) = true from by
        simpa [jqGt] using hgt), if_pos hgt]
    · rw [if_neg (show ¬ jqGt (JQ.num (qs.sum / qs.length)) (.num rf) = true from by
        simpa [jqGt] using hgt), if_neg hgt]
      by_cases hlt : qs.sum / qs.length < rf
      · rw [if_pos (show jqLt (JQ.num (qs.sum / qs.length)) (.num rf) = true from by
          simpa [jqLt] using hlt), if_pos hlt]
      · rw [if_neg (show ¬ jqLt (JQ.num (qs.sum / qs.length)) (.num rf) = true from by
          simpa [jqLt] using hlt), if_neg hlt]
  · intro hvol
    rw [hred, if_neg (fun h => hvol ((jrLt_val _ _).mp h))]
    have hpos : (0 : ℝ) < Real.sqrt (((qs.map fun x => (x - qs.sum / qs.length) ^ 2).sum
        / ((qs.length : ℚ) - 1) : ℚ)) := by
      have h10 : (0 : ℝ) < 1e-10 := by norm_num
      have := not_lt.mp hvol
      linarith
    show Except.ok (jrDiv (.val ((qs.sum / qs.length - rf : ℚ) : ℝ)) (.val _)) = _
    simp only [jrDiv]
    rw [if_neg hpos.ne']

/-- C6 witness: a constant return series with zero volatility and mean above
the risk-free rate. -/
theorem sharpe_formula_witness :
    calculateSharpeRatio ([1/20, 1/20].map JQ.num) (.num (1/50)) = .ok .posInf := by
  have h := (sharpe_formula [1/20, 1/20] (1/50) (by norm_num)).1 (by norm_num)
  rw [h]
  norm_num

end Portfolio

namespace Portfolio

/-! ## The bisection loop: equations and trajectory -/

/-- Defining equation of the exhausted loop. -/
lemma bisect_zero (f : ℝ → ℝ) (lo hi : ℝ) :
    bisect f lo hi 0
      = if |f ((lo + hi) / 2)| > 1e-4 then .error .nonConvergence
        else .ok ((lo + hi) / 2) := rfl

/-- Defining equation of one loop iteration. -/
lemma bisect_succ (f : ℝ → ℝ) (lo hi : ℝ) (n : ℕ) :
    bisect f lo hi (n + 1)
      = if |f ((lo + hi) / 2)| < 1e-6 then .ok ((lo + hi) / 2)
        else if f ((lo + hi) / 2) > 0 then bisect f ((lo + hi) / 2) hi n
        else bisect f lo ((lo + hi) / 2) n := rfl

/-- The loop never produces the `noRootInBracket` error: that error comes
only from the bracket check before the loop. -/
lemma bisect_ne_noRoot (f : ℝ → ℝ) : ∀ (n : ℕ) (lo hi : ℝ),
    bisect f lo hi n ≠ .error .noRootInBracket := by
  intro n
  induction n with
  | zero =>
      intro lo hi h
      rw [bisect_zero] at h
      by_cases hc : |f ((lo + hi) / 2)| > 1e-4
      · rw [if_pos hc] at h
        cases h
      · rw [if_neg hc] at h
        cases h
  | succ n ih =>
      intro lo hi h
      rw [bisect_succ] at h
      by_cases h1 : |f ((lo + hi) / 2)| < 1e-6
      · rw [if_pos h1] at h
        cases h
      · rw [if_neg h1] at h
        by_cases h2 : f ((lo + hi) / 2) > 0
        · rw [if_pos h2] at h
          exact ih _ _ h
        · rw [if_neg h2] at h
          exact ih _ _ h

/-- One step of the bracket state `(low, high)` agrees with the loop's
update. -/
lemma bStep_pos (f : ℝ → ℝ) (p : ℝ × ℝ) (h : f ((p.1 + p.2) / 2) > 0) :
    bStep f p = ((p.1 + p.2) / 2, p.2) := by
  unfold bStep
  rw [if_pos h]

lemma bStep_neg (f : ℝ → ℝ) (p : ℝ × ℝ) (h : ¬ f ((p.1 + p.2) / 2) > 0) :
    bStep f p = (p.1, (p.1 + p.2) / 2) := by
  unfold bStep
  rw [if_neg h]

/-- When no midpoint along the trajectory meets the `1e-6` early-return
tolerance, the loop exhausts its fuel and applies the final `1e-4` check to
the midpoint of the `n`-times-narrowed bracket. -/
lemma bisect_no_hit (f : ℝ → ℝ) : ∀ (n : ℕ) (p : ℝ × ℝ),
    (∀ j < n, ¬ |f (bMid ((bStep f)^[j] p))| < 1e-6) →
    bisect f p.1 p.2 n
      = if |f (bMid ((bStep f)^[n] p))| > 1e-4 then .error .nonConvergence
        else .ok (bMid ((bStep f)^[n] p)) := by
  intro n
  induction n with
  | zero =>
      intro p _
      rw [bisect_zero]
      rfl
  | succ n ih =>
      intro p hno
      have h0 : ¬ |f (bMid p)| < 1e-6 := by
        simpa using hno 0 (Nat.succ_pos n)
      rw [bisect_succ, if_neg (by simpa [bMid] using h0)]
      have hshift : ∀ j < n, ¬ |f (bMid ((bStep f)^[j] (bStep f p)))| < 1e-6 := by
        intro j hj
        have := hno (j + 1) (Nat.succ_lt_succ hj)
        rwa [Function.iterate_succ_apply] at this
      by_cases hsign : f ((p.1 + p.2) / 2) > 0
      · rw [if_pos hsign]
        have h := ih (bStep f p) hshift
        rw [bStep_pos f p hsign] at h
        rw [h, ← bStep_pos f p hsign, ← Function.iterate_succ_apply]
      · rw [if_neg hsign]
        have h := ih (bStep f p) hshift
        rw [bStep_neg f p hsign] at h
        rw [h, ← bStep_neg f p hsign, ← Function.iterate_succ_apply]

/-- The loop returns the first midpoint meeting the `1e-6` tolerance. -/
lemma bisect_first_hit (f : ℝ → ℝ) : ∀ (i n : ℕ) (p : ℝ × ℝ), i < n →
    (∀ j < i, ¬ |f (bMid ((bStep f)^[j] p))| < 1e-6) →
    |f (bMid ((bStep f)^[i] p))| < 1e-6 →
    bisect f p.1 p.2 n = .ok (bMid ((bStep f)^[i] p)) := by
  intro i
  induction i with
  | zero =>
      intro n p hin _ hhit
      obtain ⟨m, rfl⟩ : ∃ m, n = m + 1 := ⟨n - 1, by omega⟩
      rw [bisect_succ, if_pos (by simpa [bMid] using hhit)]
      simp [bMid]
  | succ i ih =>
      intro n p hin hfirst hhit
      obtain ⟨m, rfl⟩ : ∃ m, n = m + 1 := ⟨n - 1, by omega⟩
      have h0 : ¬ |f (bMid p)| < 1e-6 := by
        simpa using hfirst 0 (Nat.succ_pos i)
      rw [bisect_succ, if_neg (by simpa [bMid] using h0)]
      have hshift : ∀ j < i, ¬ |f (bMid ((bStep f)^[j] (bStep f p)))| < 1e-6 := by
        intro j hj
        have := hfirst (j + 1) (Nat.succ_lt_succ hj)
        rwa [Function.iterate_succ_apply] at this
      have hhit2 : |f (bMid ((bStep f)^[i] (bStep f p)))| < 1e-6 := by
        rwa [Function.iterate_succ_apply] at hhit
      by_cases hsign : f ((p.1 + p.2) / 2) > 0
      · rw [if_pos hsign]
        have h := ih m (bStep f p) (by omega) hshift hhit2
        rw [bStep_pos f p hsign] at h
        rw [h, ← bStep_pos f p hsign, ← Function.iterate_succ_apply]
      · rw [if_neg hsign]
        have h := ih m (bStep f p) (by omega) hshift hhit2
        rw [bStep_neg f p hsign] at h
        rw [h, ← bStep_neg f p hsign, ← Function.iterate_succ_apply]

/-- On a bracket where the NPV stays below `-1e-4`, the loop always narrows
towards `low`, never meets either tolerance, and exhausts its fuel into
`nonConvergence`. -/
lemma bisect_all_neg (f : ℝ → ℝ) : ∀ (n : ℕ) (lo hi : ℝ), lo ≤ hi →
    (∀ x, lo ≤ x → x ≤ hi → f x < -(1e-4)) →
    bisect f lo hi n = .error .nonConvergence := by
  intro n
  induction n with
  | zero =>
      intro lo hi hle hneg
      have hmid : f ((lo + hi) / 2) < -(1e-4) := hneg _ (by linarith) (by linarith)
      rw [bisect_zero, if_pos (by rw [abs_of_neg (by linarith)]; linarith)]
  | succ n ih =>
      intro lo hi hle hneg
      have hmid : f ((lo + hi) / 2) < -(1e-4) := hneg _ (by linarith) (by linarith)
      rw [bisect_succ, if_neg (by rw [abs_of_neg (by linarith)]; push_neg; linarith),
        if_neg (by linarith)]
      exact ih lo ((lo + hi) / 2) (by linarith)
        (fun x hx1 hx2 => hneg x hx1 (by linarith))

/-- Validation and length reduce `calculateXIRR` to its post-validation
body. -/
lemma xirr_ok_reduction (cfs : List Cashflow) (valid : List (ℤ × ℚ))
    (hv : validateEntries cfs = .ok valid) (hlen : 2 ≤ cfs.length) :
    calculateXIRR cfs = xirrBody valid := by
  unfold calculateXIRR
  rw [if_neg (by omega), hv]

end Portfolio

namespace Portfolio

/-! ## Concrete NPV evaluations -/

/-- Two cashflows on the reference date: no discounting at all. -/
lemma npv_pair0 (r : ℝ) (a b : ℚ) (t : ℤ) :
    npv r [(t, a), (t, b)] t = (a : ℝ) + (b : ℝ) := by
  unfold npv
  simp only [List.foldl_cons, List.foldl_nil]
  have he : (((t - t : ℤ) : ℝ)) / ((msPerYear : ℚ) : ℝ) = 0 := by simp
  rw [he, Real.rpow_zero]
  ring

/-- A cashflow on the reference date and one exactly a 365.25-day year
later: discount factors `1` and `1 + r`. -/
lemma npv_year (r : ℝ) (a b : ℚ) :
    npv r [((0 : ℤ), a), ((31557600000 : ℤ), b)] 0
      = (a : ℝ) + (b : ℝ) / (1 + r) := by
  unfold npv
  simp only [List.foldl_cons, List.foldl_nil]
  have h0 : (((0 - 0 : ℤ) : ℝ)) / ((msPerYear : ℚ) : ℝ) = 0 := by simp
  have h1 : (((31557600000 - 0 : ℤ) : ℝ)) / ((msPerYear : ℚ) : ℝ) = 1 := by
    norm_num [msPerYear]
  rw [h0, h1, Real.rpow_zero, Real.rpow_one]
  ring

/-! ## Claim C2: the bracket sign check -/

/-- C2: for a series passing validation (and the mixed-sign check),
`calculateXIRR` fails with `noRootInBracket` exactly when the product of the
NPVs at the bracket endpoints `-0.999` and `100000.0` is positive; no
bisection path produces that error. -/
theorem xirr_bracket_check_iff (cfs : List Cashflow) (valid : List (ℤ × ℚ))
    (hv : validateEntries cfs = .ok valid) (hlen : 2 ≤ cfs.length)
    (hpos : (valid.any fun p => 0 < p.2) = true)
    (hneg : (valid.any fun p => p.2 < 0) = true) :
    calculateXIRR cfs = .error .noRootInBracket
      ↔ npv (-0.999) (sortFlows valid) (sortFlows valid).headI.1
          * npv 100000 (sortFlows valid) (sortFlows valid).headI.1 > 0 := by
  rw [xirr_ok_reduction cfs valid hv hlen]
  unfold xirrBody
  rw [hpos, hneg, if_neg (by simp)]
  constructor
  · intro h
    by_cases hbr : npv (-0.999) (sortFlows valid) (sortFlows valid).headI.1
        * npv 100000 (sortFlows valid) (sortFlows valid).headI.1 > 0
    · exact hbr
    · rw [if_neg hbr] at h
      exact absurd h (bisect_ne_noRoot _ 100 _ _)
  · intro hbr
    rw [if_pos hbr]

/-- C2 witness: two same-date flows `-1` and `+2` give the constant NPV `1`,
so the endpoint product is positive and the function fails before
iterating. -/
theorem xirr_bracket_check_iff_witness :
    calculateXIRR [⟨some 0, JQ.num (-1)⟩, ⟨some 0, JQ.num 2⟩]
      = .error .noRootInBracket := by
  have hv : validateEntries [⟨some 0, JQ.num (-1)⟩, ⟨some 0, JQ.num 2⟩]
      = .ok [(0, -1), (0, 2)] := by
    norm_num [validateEntries, jqFalsy]
  refine (xirr_bracket_check_iff _ [(0, -1), (0, 2)] hv (by norm_num)
    (by norm_num) (by norm_num)).mpr ?_
  rw [show sortFlows [((0 : ℤ), (-1 : ℚ)), (0, 2)] = [(0, -1), (0, 2)] from by
    norm_num [sortFlows, sortInsert]]
  rw [show ([((0 : ℤ), (-1 : ℚ)), (0, 2)] : List (ℤ × ℚ)).headI.1 = 0 from rfl]
  rw [npv_pair0, npv_pair0]
  norm_num

end Portfolio

namespace Portfolio

/-! ## Claim C1: the bisection's return policy -/

/-- C1: for a validated, sorted, mixed-sign series whose NPV product at the
bracket endpoints is not positive, with `f` the NPV along the sorted flows
and the bracket trajectory advanced by `bStep` from `(-0.999, 100000)`:
the function returns the first midpoint whose NPV magnitude is below `1e-6`
within the 100 iterations; and when no midpoint meets that tolerance it
returns the final (100-times-narrowed) midpoint exactly when that
midpoint's NPV magnitude is at most `1e-4`, failing with `nonConvergence`
otherwise. -/
theorem xirr_bisection_return_policy (cfs : List Cashflow)
    (valid : List (ℤ × ℚ)) (f : ℝ → ℝ)
    (hv : validateEntries cfs = .ok valid) (hlen : 2 ≤ cfs.length)
    (hpos : (valid.any fun p => 0 < p.2) = true)
    (hneg : (valid.any fun p => p.2 < 0) = true)
    (hf : f = fun r => npv r (sortFlows valid) (sortFlows valid).headI.1)
    (hbr : ¬ (f (-0.999) * f 100000 > 0)) :
    (∀ i < 100, (∀ j < i, ¬ |f (bMid ((bStep f)^[j] (-0.999, 100000)))| < 1e-6) →
        |f (bMid ((bStep f)^[i] (-0.999, 100000)))| < 1e-6 →
        calculateXIRR cfs = .ok (bMid ((bStep f)^[i] (-0.999, 100000))))
    ∧ ((∀ j < 100, ¬ |f (bMid ((bStep f)^[j] (-0.999, 100000)))| < 1e-6) →
        calculateXIRR cfs
          = if |f (bMid ((bStep f)^[100] (-0.999, 100000)))| ≤ 1e-4 then
              .ok (bMid ((bStep f)^[100] (-0.999, 100000)))
            else .error .nonConvergence) := by
  subst hf
  have hred : calculateXIRR cfs
      = bisect (fun r => npv r (sortFlows valid) (sortFlows valid).headI.1)
          (-0.999) 100000 100 := by
    rw [xirr_ok_reduction cfs valid hv hlen]
    unfold xirrBody
    rw [hpos, hneg, if_neg (by simp), if_neg (by simpa using hbr)]
  constructor
  · intro i hi hfirst hhit
    rw [hred]
    exact bisect_first_hit _ i 100 ((-0.999 : ℝ), (100000 : ℝ)) hi hfirst hhit
  · intro hno
    rw [hred,
      bisect_no_hit _ 100 ((-0.999 : ℝ), (100000 : ℝ)) hno]
    by_cases hle : |(fun r => npv r (sortFlows valid) (sortFlows valid).headI.1)
        (bMid ((bStep (fun r => npv r (sortFlows valid) (sortFlows valid).headI.1))^[100]
          (-0.999, 100000)))| ≤ 1e-4
    · rw [if_neg (not_lt.mpr hle), if_pos hle]
    · rw [if_pos (not_le.mp hle), if_neg hle]

/-- C1 witness: two same-date flows `-1` and `+1` give the constant NPV `0`,
so the very first midpoint meets the `1e-6` tolerance and is returned. -/
theorem xirr_bisection_return_policy_witness :
    calculateXIRR [⟨some 0, JQ.num (-1)⟩, ⟨some 0, JQ.num 1⟩]
      = .ok ((-0.999 + 100000) / 2) := by
  have hv : validateEntries [⟨some 0, JQ.num (-1)⟩, ⟨some 0, JQ.num 1⟩]
      = .ok [(0, -1), (0, 1)] := by
    norm_num [validateEntries, jqFalsy]
  have hsort : sortFlows [((0 : ℤ), (-1 : ℚ)), (0, 1)] = [(0, -1), (0, 1)] := by
    norm_num [sortFlows, sortInsert]
  have hnpv : ∀ r : ℝ,
      npv r (sortFlows [((0 : ℤ), (-1 : ℚ)), (0, 1)])
        (sortFlows [((0 : ℤ), (-1 : ℚ)), (0, 1)]).headI.1 = 0 := by
    intro r
    rw [hsort, show ([((0 : ℤ), (-1 : ℚ)), (0, 1)] : List (ℤ × ℚ)).headI.1 = 0 from rfl,
      npv_pair0]
    norm_num
  have h := (xirr_bisection_return_policy
    [⟨some 0, JQ.num (-1)⟩, ⟨some 0, JQ.num 1⟩] [(0, -1), (0, 1)] _ hv
    (by norm_num) (by norm_num) (by norm_num) rfl
    (by rw [hnpv, hnpv]; norm_num)).1 0 (by norm_num)
    (fun j hj => absurd hj (Nat.not_lt_zero j))
    (by rw [Function.iterate_zero_apply, bMid, hnpv]; norm_num)
  rw [h, Function.iterate_zero_apply, bMid]

end Portfolio

namespace Portfolio

/-! ## Claim C3: negating every amount -/

/-- Peeling one cashflow off the NPV sum. -/
lemma npv_cons (r : ℝ) (d : ℤ) (c : ℤ × ℚ) (l : List (ℤ × ℚ)) :
    npv r (c :: l) d
      = (c.2 : ℝ) / (1 + r) ^ (((c.1 - d : ℤ) : ℝ) / ((msPerYear : ℚ) : ℝ))
        + npv r l d := by
  have key : ∀ (t : List (ℤ × ℚ)) (s : ℝ),
      t.foldl (fun sum cf =>
        sum + (cf.2 : ℝ) / (1 + r) ^ (((cf.1 - d : ℤ) : ℝ) / ((msPerYear : ℚ) : ℝ))) s
        = s + t.foldl (fun sum cf =>
            sum + (cf.2 : ℝ) / (1 + r) ^ (((cf.1 - d : ℤ) : ℝ) / ((msPerYear : ℚ) : ℝ))) 0 := by
    intro t
    induction t with
    | nil => intro s; simp
    | cons a u ih =>
        intro s
        simp only [List.foldl_cons]
        rw [ih, ih (0 + _)]
        ring
  show List.foldl _ 0 (c :: l) = _
  simp only [List.foldl_cons]
  rw [key]
  show 0 + (c.2 : ℝ) / (1 + r) ^ (((c.1 - d : ℤ) : ℝ) / ((msPerYear : ℚ) : ℝ))
      + npv r l d = _
  ring

/-- Negating every amount negates the NPV pointwise. -/
lemma npv_neg (r : ℝ) (d : ℤ) : ∀ l : List (ℤ × ℚ),
    npv r (l.map fun p => (p.1, -p.2)) d = -(npv r l d) := by
  intro l
  induction l with
  | nil =>
      show (0 : ℝ) = -0
      norm_num
  | cons c t ih =>
      rw [List.map_cons, npv_cons, npv_cons, ih]
      push_cast
      ring

/-- Negating every amount preserves acceptance by the validation loop and
negates each collected amount. -/
lemma validateEntries_neg (cfs : List Cashflow) : ∀ l : List (ℤ × ℚ),
    validateEntries cfs = .ok l →
    validateEntries (cfs.map fun cf => ⟨cf.date, jqNeg cf.amount⟩)
      = .ok (l.map fun p => (p.1, -p.2)) := by
  induction cfs with
  | nil =>
      intro l h
      injection h with h
      subst h
      rfl
  | cons cf rest ih =>
      intro l h
      rw [validateEntries] at h
      by_cases hf : jqFalsy cf.amount
      · rw [if_pos hf] at h
        cases h
      · rw [if_neg hf] at h
        cases hdate : cf.date with
        | none =>
            rw [hdate] at h
            cases h
        | some d =>
            rw [hdate] at h
            cases hamt : cf.amount with
            | nan =>
                rw [hamt] at h
                cases h
            | num q =>
                rw [hamt] at h
                cases hrec : validateEntries rest with
                | error e =>
                    rw [hrec] at h
                    cases h
                | ok tail =>
                    rw [hrec] at h
                    injection h with h
                    subst h
                    have hq : q ≠ 0 := by
                      intro h0
                      apply hf
                      rw [hamt, h0]
                      rfl
                    rw [List.map_cons, validateEntries]
                    dsimp only
                    rw [hdate, hamt]
                    rw [if_neg (by simpa [jqNeg, jqFalsy] using hq)]
                    rw [show jqNeg (JQ.num q) = JQ.num (-q) from rfl]
                    rw [ih tail hrec]
                    rfl

/-- C3 (amended): negating every amount flips the sign of the NPV uniformly
(`npv r (negated) d = -(npv r l d)`, so the exact roots of the NPV are
unchanged) and preserves acceptance by the entry validation; the bisection
itself, however, is not invariant under this flip (see the counterexample),
so `calculateXIRR` need not return the same rate on the negated series. -/
theorem xirr_negation_flips_npv :
    (∀ (r : ℝ) (d : ℤ) (l : List (ℤ × ℚ)),
        npv r (l.map fun p => (p.1, -p.2)) d = -(npv r l d))
    ∧ (∀ (cfs : List Cashflow) (l : List (ℤ × ℚ)),
        validateEntries cfs = .ok l →
        validateEntries (cfs.map fun cf => ⟨cf.date, jqNeg cf.amount⟩)
          = .ok (l.map fun p => (p.1, -p.2))) :=
  ⟨npv_neg, validateEntries_neg⟩

end Portfolio

namespace Portfolio

/-- C3 counterexample: on the valid series
`[-4000 at t0, +300003001 at t0 + 1 year]` the bisection returns the rate
`74999.75025` (the second midpoint, where the NPV is exactly `0`), but on
the amount-negated series — whose NPV has the same root — the sign flip
reverses the bracket-update direction: the very first update discards the
half-bracket containing the root, the NPV stays below `-1e-4` on the kept
half, and the loop exhausts its 100 iterations into `nonConvergence`. -/
theorem xirr_negation_changes_result :
    calculateXIRR [⟨some 0, JQ.num (-4000)⟩, ⟨some 31557600000, JQ.num 300003001⟩]
      = .ok (((-0.999 + 100000) / 2 + 100000) / 2)
    ∧ calculateXIRR (([⟨some 0, JQ.num (-4000)⟩,
          ⟨some 31557600000, JQ.num 300003001⟩] : List Cashflow).map
        fun cf => Cashflow.mk cf.date (jqNeg cf.amount))
      = .error .nonConvergence := by
  constructor
  · -- the original series
    have hv : validateEntries
        [⟨some 0, JQ.num (-4000)⟩, ⟨some 31557600000, JQ.num 300003001⟩]
        = .ok [(0, -4000), (31557600000, 300003001)] := by
      norm_num [validateEntries, jqFalsy]
    have hsort : sortFlows [((0 : ℤ), (-4000 : ℚ)), (31557600000, 300003001)]
        = [(0, -4000), (31557600000, 300003001)] := by
      norm_num [sortFlows, sortInsert]
    have hn : ∀ r : ℝ,
        npv r (sortFlows [((0 : ℤ), (-4000 : ℚ)), (31557600000, 300003001)])
          (sortFlows [((0 : ℤ), (-4000 : ℚ)), (31557600000, 300003001)]).headI.1
        = -4000 + 300003001 / (1 + r) := by
      intro r
      rw [hsort, show ([((0 : ℤ), (-4000 : ℚ)), (31557600000, 300003001)] :
        List (ℤ × ℚ)).headI.1 = 0 from rfl, npv_year]
      push_cast
      ring
    have hstep : (bStep (fun r => npv r
          (sortFlows [((0 : ℤ), (-4000 : ℚ)), (31557600000, 300003001)])
          (sortFlows [((0 : ℤ), (-4000 : ℚ)), (31557600000, 300003001)]).headI.1))^[1]
          ((-0.999 : ℝ), (100000 : ℝ))
        = ((-0.999 + 100000) / 2, 100000) := by
      rw [Function.iterate_one]
      exact bStep_pos _ _ (by
        show (0 : ℝ) < npv ((-0.999 + 100000) / 2)
          (sortFlows [((0 : ℤ), (-4000 : ℚ)), (31557600000, 300003001)])
          (sortFlows [((0 : ℤ), (-4000 : ℚ)), (31557600000, 300003001)]).headI.1
        rw [hn]
        norm_num)
    rw [xirr_ok_reduction _ _ hv (by norm_num)]
    unfold xirrBody
    rw [if_neg (by norm_num), if_neg (by rw [hn, hn]; norm_num)]
    have hres := bisect_first_hit
      (fun r => npv r (sortFlows [((0 : ℤ), (-4000 : ℚ)), (31557600000, 300003001)])
        (sortFlows [((0 : ℤ), (-4000 : ℚ)), (31557600000, 300003001)]).headI.1)
      1 100 ((-0.999 : ℝ), (100000 : ℝ)) (by norm_num)
      (by
        intro j hj
        have hj0 : j = 0 := by omega
        subst hj0
        rw [Function.iterate_zero_apply]
        show ¬ |npv ((-0.999 + 100000) / 2)
          (sortFlows [((0 : ℤ), (-4000 : ℚ)), (31557600000, 300003001)])
          (sortFlows [((0 : ℤ), (-4000 : ℚ)), (31557600000, 300003001)]).headI.1| < 1e-6
        rw [hn, abs_of_pos (by norm_num)]
        norm_num)
      (by
        rw [hstep]
        show |npv (((-0.999 + 100000) / 2 + 100000) / 2)
          (sortFlows [((0 : ℤ), (-4000 : ℚ)), (31557600000, 300003001)])
          (sortFlows [((0 : ℤ), (-4000 : ℚ)), (31557600000, 300003001)]).headI.1| < 1e-6
        rw [hn, show (-4000 + 300003001 / (1 + ((-0.999 + 100000) / 2 + 100000) / 2) : ℝ)
          = 0 from by norm_num, abs_zero]
        norm_num)
    rw [show bisect (fun r => npv r
        (sortFlows [((0 : ℤ), (-4000 : ℚ)), (31557600000, 300003001)])
        (sortFlows [((0 : ℤ), (-4000 : ℚ)), (31557600000, 300003001)]).headI.1)
        (-0.999) 100000 100 = .ok (bMid ((bStep (fun r => npv r
          (sortFlows [((0 : ℤ), (-4000 : ℚ)), (31557600000, 300003001)])
          (sortFlows [((0 : ℤ), (-4000 : ℚ)), (31557600000, 300003001)]).headI.1))^[1]
          ((-0.999 : ℝ), (100000 : ℝ)))) from hres, hstep]
    rfl
  · -- the negated series
    have hmap : (([⟨some 0, JQ.num (-4000)⟩,
          ⟨some 31557600000, JQ.num 300003001⟩] : List Cashflow).map
        fun cf => Cashflow.mk cf.date (jqNeg cf.amount))
        = [⟨some 0, JQ.num 4000⟩, ⟨some 31557600000, JQ.num (-300003001)⟩] := by
      norm_num [jqNeg]
    have hvN : validateEntries
        [⟨some 0, JQ.num 4000⟩, ⟨some 31557600000, JQ.num (-300003001)⟩]
        = .ok [(0, 4000), (31557600000, -300003001)] := by
      norm_num [validateEntries, jqFalsy]
    have hsortN : sortFlows [((0 : ℤ), (4000 : ℚ)), (31557600000, -300003001)]
        = [(0, 4000), (31557600000, -300003001)] := by
      norm_num [sortFlows, sortInsert]
    have hnN : ∀ r : ℝ,
        npv r (sortFlows [((0 : ℤ), (4000 : ℚ)), (31557600000, -300003001)])
          (sortFlows [((0 : ℤ), (4000 : ℚ)), (31557600000, -300003001)]).headI.1
        = 4000 - 300003001 / (1 + r) := by
      intro r
      rw [hsortN, show ([((0 : ℤ), (4000 : ℚ)), (31557600000, -300003001)] :
        List (ℤ × ℚ)).headI.1 = 0 from rfl, npv_year]
      push_cast
      ring
    rw [hmap, xirr_ok_reduction _ _ hvN (by norm_num)]
    unfold xirrBody
    rw [if_neg (by norm_num), if_neg (by rw [hnN, hnN]; norm_num)]
    rw [show (100 : ℕ) = 99 + 1 from rfl, bisect_succ]
    rw [if_neg (by
        show ¬ |npv ((-0.999 + 100000) / 2)
          (sortFlows [((0 : ℤ), (4000 : ℚ)), (31557600000, -300003001)])
          (sortFlows [((0 : ℤ), (4000 : ℚ)), (31557600000, -300003001)]).headI.1| < 1e-6
        rw [hnN, abs_of_neg (by norm_num)]
        norm_num),
      if_neg (by
        show ¬ npv ((-0.999 + 100000) / 2)
          (sortFlows [((0 : ℤ), (4000 : ℚ)), (31557600000, -300003001)])
          (sortFlows [((0 : ℤ), (4000 : ℚ)), (31557600000, -300003001)]).headI.1 > 0
        rw [hnN]
        norm_num)]
    apply bisect_all_neg _ 99 _ _ (by norm_num)
    intro x hx1 hx2
    show npv x (sortFlows [((0 : ℤ), (4000 : ℚ)), (31557600000, -300003001)])
      (sortFlows [((0 : ℤ), (4000 : ℚ)), (31557600000, -300003001)]).headI.1 < -(1e-4)
    rw [hnN]
    norm_num at hx2
    have h1x : (0 : ℝ) < 1 + x := by linarith
    have h2x : 1 + x ≤ 50000.5005 := by linarith
    have hkey : (4000 : ℝ) + 1e-4 < 300003001 / (1 + x) := by
      rw [lt_div_iff₀ h1x]
      nlinarith
    linarith

end Portfolio
